import Mathlib

/-!
Verification development for the delimited-file checker
(`delimited_file_checker.py`).  The Python module reads a file through
`csv.reader`, takes the first yielded row with positive length as the
header, compares every later row's field count to the header's, stores
mismatched rows in a string-keyed map, and renders a GOOD / FAIR / BAD
outcome plus an optional report artifact.

The embedding below mirrors the module faithfully:
* `csvParse` is CPython's `csv.reader` character state machine for the
  default dialect (quote character `"`, doubled-quote escaping, minimal
  quoting, non-strict), with `\n` as the line terminator (text mode
  translates `\r\n`; none of the analysed inputs contain a bare `\r`).
* `read_delimited_record` is the generator `ParseDelimitedFile.read_delimited_record`.
* `parse_records` is `ParseDelimitedFile.parse_records`; Python integers
  are `Nat` except where a value can become negative, where `Int` is used
  (`record_length`, and the `len(bad_records) - 1` test).
* `fmtKey` models the Python format `f"\x7brecord_count + delimiter_count / 10000:0>14.4f\x7d"`
  by exact decimal arithmetic; the float format prints the same string for
  every record count below 2 ^ 40, far beyond any file size of interest.
* The report artifact's free prose lines are not modelled; the model keeps
  the per-bad-record entry lines (`reportEntries`), the truncation-notice
  flag and the written path, which is all the claims inspect.
-/

namespace DFC

/-! ### CPython csv.reader state machine -/

inductive CsvMode
  | startRecord
  | startField
  | inField
  | inQuoted
  | quoteInQuoted
deriving DecidableEq

/-- Character-level model of CPython's `parse_process_char` for the default
dialect.  `field` is the field accumulated so far, `row` the fields of the
record in progress; finished records are emitted in order. -/
def csvParseAux (d : Char) : List Char → CsvMode → List Char → List (List Char) →
    List (List (List Char))
  | [], .startRecord, _, _ => []
  | [], _, field, row => [row ++ [field]]
  | c :: cs, .startRecord, _, _ =>
      if c = '\n' then [] :: csvParseAux d cs .startRecord [] []
      else if c = '"' then csvParseAux d cs .inQuoted [] []
      else if c = d then csvParseAux d cs .startField [] [[]]
      else csvParseAux d cs .inField [c] []
  | c :: cs, .startField, _, row =>
      if c = '\n' then (row ++ [[]]) :: csvParseAux d cs .startRecord [] []
      else if c = '"' then csvParseAux d cs .inQuoted [] row
      else if c = d then csvParseAux d cs .startField [] (row ++ [[]])
      else csvParseAux d cs .inField [c] row
  | c :: cs, .inField, field, row =>
      if c = '\n' then (row ++ [field]) :: csvParseAux d cs .startRecord [] []
      else if c = d then csvParseAux d cs .startField [] (row ++ [field])
      else csvParseAux d cs .inField (field ++ [c]) row
  | c :: cs, .inQuoted, field, row =>
      if c = '"' then csvParseAux d cs .quoteInQuoted field row
      else csvParseAux d cs .inQuoted (field ++ [c]) row
  | c :: cs, .quoteInQuoted, field, row =>
      if c = '"' then csvParseAux d cs .inQuoted (field ++ ['"']) row
      else if c = d then csvParseAux d cs .startField [] (row ++ [field])
      else if c = '\n' then (row ++ [field]) :: csvParseAux d cs .startRecord [] []
      else csvParseAux d cs .inField (field ++ [c]) row

def csvParse (d : Char) (cs : List Char) : List (List (List Char)) :=
  csvParseAux d cs .startRecord [] []

/-! ### read_delimited_record -/

/-- `total_field_length + delimiter_count` of one csv row
(`sum(len(rec) for rec in record)` plus `len(record) - 1`); a Python int,
negative (`-1`) exactly on a blank row. -/
def record_length_of (row : List (List Char)) : Int :=
  (row.foldl (fun a f => a + f.length) 0 : Nat) + ((row.length : Int) - 1)

/-- The generator loop: `ctr` increments on every csv row; rows with
non-positive computed length are not yielded. -/
def readDelimitedAux : List (List (List Char)) → Nat → List (Nat × Nat × List (List Char))
  | [], _ => []
  | r :: rs, ctr =>
      if 0 < record_length_of r then
        (ctr + 1, (record_length_of r).toNat, r) :: readDelimitedAux rs (ctr + 1)
      else readDelimitedAux rs (ctr + 1)

def read_delimited_record (d : Char) (content : List Char) :
    List (Nat × Nat × List (List Char)) :=
  readDelimitedAux (csvParse d content) 0

/-! ### Configuration (constructor arguments after `__init__`) -/

structure Config where
  delimiter : Char
  filename : List Char
  write_output_file : Bool
  ignore_over_count : Bool
  expected_delimiter_count : Nat
deriving DecidableEq

/-- `0 if expected_delimiter_count <= 0 else expected_delimiter_count`. -/
def initExpectedDelimiterCount (n : Int) : Nat :=
  if n ≤ 0 then 0 else n.toNat

/-! ### Bad-record keys -/

/-- Decimal digits of `n`, most significant first (fuel-structured so the
kernel can evaluate it). -/
def natDigitsAux : Nat → Nat → List Char
  | 0, _ => []
  | fuel + 1, n =>
      if n < 10 then [Nat.digitChar n]
      else natDigitsAux fuel (n / 10) ++ [Nat.digitChar (n % 10)]

def natDigits (n : Nat) : List Char := natDigitsAux (n + 1) n

def padLeftZeros (w : Nat) (s : List Char) : List Char :=
  List.replicate (w - s.length) '0' ++ s

/-- The composite key `f"\x7brecord_count + delimiter_count / 10000:0>14.4f\x7d"`,
computed in exact decimal arithmetic. -/
def fmtKey (record_count delimiter_count : Nat) : List Char :=
  let n := record_count * 10000 + delimiter_count
  padLeftZeros 14 (natDigits (n / 10000) ++ '.' :: padLeftZeros 4 (natDigits (n % 10000)))

/-- Python dict assignment `m[k] = v`: replace in place or append. -/
def upsertBad (m : List (List Char × List Char)) (k v : List Char) :
    List (List Char × List Char) :=
  match m with
  | [] => [(k, v)]
  | p :: rest => if p.1 = k then (k, v) :: rest else p :: upsertBad rest k v

/-- `save_bad_records`. -/
def save_bad_records (m : List (List Char × List Char)) (record : List Char)
    (record_count delimiter_count : Nat) : List (List Char × List Char) :=
  upsertBad m (fmtKey record_count delimiter_count) record

/-- `delimiters_found[k] += 1` with `KeyError` fallback to `= 1`. -/
def bumpTally (m : List (Nat × Nat)) (k : Nat) : List (Nat × Nat) :=
  match m with
  | [] => [(k, 1)]
  | p :: rest => if p.1 = k then (k, p.2 + 1) :: rest else p :: bumpTally rest k

/-- `self.delimiter.join(record_fields)`. -/
def joinDelim (d : Char) : List (List Char) → List Char
  | [] => []
  | [f] => f
  | f :: fs => f ++ d :: joinDelim d fs

/-! ### parse_records accumulator -/

structure ParseState where
  delimiters_found : List (Nat × Nat)
  header_delimiter_count : Nat
  record_count : Nat
  nested_delimiter_count : Nat
  max_record_length : Nat
  record_over_count : Nat
  record_under_count : Nat
  record_equal_count : Nat
  actual_not_expected_delimiter_count : Nat
  bad_records : List (List Char × List Char)
deriving DecidableEq

def initParseState : ParseState :=
  { delimiters_found := []
    header_delimiter_count := 0
    record_count := 0
    nested_delimiter_count := 0
    max_record_length := 0
    record_over_count := 0
    record_under_count := 0
    record_equal_count := 0
    actual_not_expected_delimiter_count := 0
    bad_records := [] }

/-- Loop-body part shared by header and detail rows: rebind `record_count`,
update `max_record_length`, count nested delimiters. -/
def updCommon (cfg : Config) (st : ParseState) (r : Nat × Nat × List (List Char)) :
    ParseState :=
  { st with
    record_count := r.1
    max_record_length :=
      if r.2.1 > st.max_record_length then r.2.1 else st.max_record_length
    nested_delimiter_count :=
      if r.2.2.any (fun f => f.contains cfg.delimiter) then
        st.nested_delimiter_count + 1
      else st.nested_delimiter_count }

/-- `record_count == 1` branch: set the header count and store the header
placeholder, then `continue`. -/
def headerStep (cfg : Config) (st : ParseState) (r : Nat × Nat × List (List Char)) :
    ParseState :=
  let hdc := r.2.2.length - 1
  { st with
    header_delimiter_count := hdc
    bad_records := save_bad_records st.bad_records (joinDelim cfg.delimiter r.2.2) r.1 hdc }

/-- Detail-row branch: classify over / equal / under, count
actual-not-expected, store bad records, tally the distribution. -/
def detailStep (cfg : Config) (st : ParseState) (r : Nat × Nat × List (List Char)) :
    ParseState :=
  let detail := r.2.2.length - 1
  let st1 :=
    if detail > st.header_delimiter_count then
      { st with record_over_count := st.record_over_count + 1 }
    else if detail = st.header_delimiter_count then
      { st with record_equal_count := st.record_equal_count + 1 }
    else
      { st with record_under_count := st.record_under_count + 1 }
  let st2 :=
    if 0 < cfg.expected_delimiter_count ∧ detail ≠ cfg.expected_delimiter_count then
      { st1 with
        actual_not_expected_delimiter_count :=
          st1.actual_not_expected_delimiter_count + 1 }
    else st1
  let st3 :=
    if st2.header_delimiter_count ≠ detail ∨
        (0 < cfg.expected_delimiter_count ∧ detail ≠ cfg.expected_delimiter_count) then
      { st2 with
        bad_records :=
          save_bad_records st2.bad_records (joinDelim cfg.delimiter r.2.2) r.1 detail }
    else st2
  { st3 with delimiters_found := bumpTally st3.delimiters_found detail }

def stepRecord (cfg : Config) (st : ParseState) (r : Nat × Nat × List (List Char)) :
    ParseState :=
  let st' := updCommon cfg st r
  if r.1 = 1 then headerStep cfg st' r else detailStep cfg st' r

/-! ### Reporter -/

def BAD_RECORD_REPORTING_THRESHOLD : Nat := 100

def ERROR_DELIMITER_FILE_SUFFIX : List Char := ".ERROR_DELIMITER".toList

/-- `"_" + timestamp + ERROR_DELIMITER_FILE_SUFFIX`; the timestamp is the
class attribute captured once per process, passed here as a parameter. -/
def FILESUFFIX (ts : List Char) : List Char :=
  '_' :: ts ++ ERROR_DELIMITER_FILE_SUFFIX

/-- Python string comparison (code-point lexicographic). -/
def clistLe : List Char → List Char → Bool
  | [], _ => true
  | _ :: _, [] => false
  | a :: as, b :: bs => if a = b then clistLe as bs else decide (a < b)

def insertSorted (x : List Char) : List (List Char) → List (List Char)
  | [] => [x]
  | y :: ys => if clistLe x y then x :: y :: ys else y :: insertSorted x ys

/-- `sorted(keys)`: ascending string order (all keys are distinct strings,
so any comparison sort agrees with Python's). -/
def sortKeys : List (List Char) → List (List Char)
  | [] => []
  | x :: xs => insertSorted x (sortKeys xs)

def lookupBad (m : List (List Char × List Char)) (k : List Char) : List Char :=
  match m with
  | [] => []
  | p :: rest => if p.1 = k then p.2 else lookupBad rest k

/-- One rendered bad-record line of the report. -/
def renderEntry (bad : List (List Char × List Char)) (counter : Nat) (key : List Char) :
    List Char :=
  key ++ ':' :: lookupBad bad key ++ (if counter = 1 then " (header)\n".toList else ['\n'])

/-- The `for counter, key in enumerate(sorted(...), start=1)` loop: first
component the appended entry lines, second whether the truncation notice
was logged (`elif counter == threshold` after `counter <= threshold`
failed). -/
def reportLoopAux (bad : List (List Char × List Char)) :
    List (List Char) → Nat → List (List Char) × Bool
  | [], _ => ([], false)
  | k :: ks, counter =>
      let rest := reportLoopAux bad ks (counter + 1)
      if counter ≤ BAD_RECORD_REPORTING_THRESHOLD then
        (renderEntry bad counter k :: rest.1, rest.2)
      else if counter = BAD_RECORD_REPORTING_THRESHOLD then (rest.1, true)
      else rest

/-! ### Outcome and final classification -/

inductive Outcome
  | GOOD
  | FAIR
  | BAD
deriving DecidableEq

structure ParseResult where
  outcome : Outcome
  ret : Nat
  state : ParseState
  reportEntries : List (List Char)
  truncationLogged : Bool
  writtenPath : Option (List Char)
deriving DecidableEq

/-- The post-loop part of `parse_records` (lines 170-280). -/
def finishParse (cfg : Config) (ts : List Char) (st : ParseState) : ParseResult :=
  if (st.bad_records.length : Int) - 1 = 0 then
    { outcome := .GOOD
      ret := st.header_delimiter_count
      state := st
      reportEntries := []
      truncationLogged := false
      writtenPath := none }
  else if cfg.ignore_over_count = true ∧ 0 < st.record_over_count ∧
      st.record_under_count = 0 then
    { outcome := .FAIR
      ret := st.header_delimiter_count
      state := st
      reportEntries := []
      truncationLogged := false
      writtenPath := none }
  else
    let rep := reportLoopAux st.bad_records (sortKeys (st.bad_records.map Prod.fst)) 1
    { outcome := .BAD
      ret := 0
      state := st
      reportEntries := rep.1
      truncationLogged := rep.2
      writtenPath :=
        if cfg.write_output_file = true then some (cfg.filename ++ FILESUFFIX ts) else none }

/-- `ParseDelimitedFile.parse_records` on file content `content`. -/
def parse_records (cfg : Config) (ts : List Char) (content : List Char) : ParseResult :=
  finishParse cfg ts
    ((read_delimited_record cfg.delimiter content).foldl (stepRecord cfg) initParseState)

/-! ### Process exit (`__main__` plus the reader's fatal handlers) -/

inductive FileInput
  | found (content : List Char)
  | notFound
  | decodeError
deriving DecidableEq

/-- Exit code of a run: `sys.exit(1)` on `FileNotFoundError` or
`UnicodeDecodeError`; otherwise `exit(0)` iff `parse_records()` is truthy. -/
def runExitCode (cfg : Config) (ts : List Char) : FileInput → Nat
  | .notFound => 1
  | .decodeError => 1
  | .found c => if (parse_records cfg ts c).ret ≠ 0 then 0 else 1

/-! ### Auxiliary notions used only in statements -/

/-- Rows paired with their 1-based csv row number, counting every row. -/
def rowsWithIndexFrom (c : Nat) : List (List (List Char)) → List (Nat × List (List Char))
  | [] => []
  | r :: rs => (c, r) :: rowsWithIndexFrom (c + 1) rs

/-- The bad-record test of the detail branch, as a Boolean predicate on a
yielded row, for a fixed header delimiter count. -/
def isBadRecord (cfg : Config) (hdr : Nat) (y : Nat × Nat × List (List Char)) : Bool :=
  decide (hdr ≠ y.2.2.length - 1 ∨
    (0 < cfg.expected_delimiter_count ∧ y.2.2.length - 1 ≠ cfg.expected_delimiter_count))

def keyOf (y : Nat × Nat × List (List Char)) : List Char :=
  fmtKey y.1 (y.2.2.length - 1)

/-- Quoting encoder used to state the quoted-field round trip: double each
quote and wrap the field in quotes, then join fields with the delimiter. -/
def escQuote : List Char → List Char
  | [] => []
  | c :: cs => if c = '"' then '"' :: '"' :: escQuote cs else c :: escQuote cs

def encodeField (f : List Char) : List Char := '"' :: escQuote f ++ ['"']

def encodeRow (d : Char) (fs : List (List Char)) : List Char :=
  joinDelim d (fs.map encodeField)

/-- The bad-record entries a list of detail rows contributes, in order. -/
def badEntriesOf (cfg : Config) (hdr : Nat) (l : List (Nat × Nat × List (List Char))) :
    List (List Char × List Char) :=
  l.filterMap
    (fun y =>
      if isBadRecord cfg hdr y = true then
        some (keyOf y, joinDelim cfg.delimiter y.2.2)
      else none)

/-- The bad-record map evolution of a run of detail rows, in isolation. -/
def badFold (cfg : Config) (hdr : Nat) (l : List (Nat × Nat × List (List Char)))
    (m : List (List Char × List Char)) : List (List Char × List Char) :=
  l.foldl
    (fun m y =>
      if isBadRecord cfg hdr y = true then
        upsertBad m (keyOf y) (joinDelim cfg.delimiter y.2.2)
      else m) m

def digitVal (c : Char) : Nat := c.toNat - 48

def keyStep (a : Nat) (c : Char) : Nat := if c = '.' then a else a * 10 + digitVal c

/-- Numeric reading of a formatted key (decimal point skipped; leading
zeros contribute nothing). -/
def keyVal (cs : List Char) : Nat := cs.foldl keyStep 0

/-! ### Concrete runs referenced by witnesses and counterexamples -/

def tsRun : List Char := "2026_10_12_00_00_00".toList

def cfgDefault : Config :=
  { delimiter := ','
    filename := "input.csv".toList
    write_output_file := false
    ignore_over_count := false
    expected_delimiter_count := initExpectedDelimiterCount 0 }

def cfgIgnoreWrite : Config :=
  { cfgDefault with write_output_file := true, ignore_over_count := true }

def cfgExpected5Ignore : Config :=
  { cfgDefault with
    ignore_over_count := true
    expected_delimiter_count := initExpectedDelimiterCount 5 }

def cfgExpected3 : Config :=
  { cfgDefault with expected_delimiter_count := initExpectedDelimiterCount 3 }

def contentTwoByTwo : List Char := "a,b\nc,d".toList

def contentFair : List Char := "a,b\nq,w,e".toList

def contentSingleCol : List Char := "a\nb".toList

def contentScenarioD : List Char := "a,b,c\nd,e,f\ng,h,i".toList

def contentExpectedFair : List Char := "a,b,c\np,q,r\nw,x,y,z".toList

def contentLeadingBlank : List Char := "\na\nb,c".toList

def contentOneBad : List Char := "a,b\nx\ny,z".toList

def contentQuoted : List Char := "col1,col2,col3\n\"a,with,commas\",val2,val3".toList

def contentManyBad : List Char :=
  "a,b".toList ++ (List.replicate 101 ('\n' :: ['x'])).flatten

/-! ## Lemmas -/

/-! ## Lemmas about the loop body -/

theorem updCommon_bad_records (cfg : Config) (st : ParseState)
    (r : Nat × Nat × List (List Char)) :
    (updCommon cfg st r).bad_records = st.bad_records := rfl

theorem updCommon_header (cfg : Config) (st : ParseState)
    (r : Nat × Nat × List (List Char)) :
    (updCommon cfg st r).header_delimiter_count = st.header_delimiter_count := rfl

theorem updCommon_over (cfg : Config) (st : ParseState)
    (r : Nat × Nat × List (List Char)) :
    (updCommon cfg st r).record_over_count = st.record_over_count := rfl

theorem updCommon_under (cfg : Config) (st : ParseState)
    (r : Nat × Nat × List (List Char)) :
    (updCommon cfg st r).record_under_count = st.record_under_count := rfl

theorem stepRecord_of_detail (cfg : Config) (st : ParseState)
    (r : Nat × Nat × List (List Char)) (h : r.1 ≠ 1) :
    stepRecord cfg st r = detailStep cfg (updCommon cfg st r) r := by
  simp [stepRecord, h]

theorem stepRecord_of_header (cfg : Config) (st : ParseState)
    (r : Nat × Nat × List (List Char)) (h : r.1 = 1) :
    stepRecord cfg st r = headerStep cfg (updCommon cfg st r) r := by
  simp [stepRecord, h]

theorem headerStep_header (cfg : Config) (st : ParseState)
    (r : Nat × Nat × List (List Char)) :
    (headerStep cfg st r).header_delimiter_count = r.2.2.length - 1 := rfl

theorem headerStep_bad_records (cfg : Config) (st : ParseState)
    (r : Nat × Nat × List (List Char)) :
    (headerStep cfg st r).bad_records =
      upsertBad st.bad_records (fmtKey r.1 (r.2.2.length - 1))
        (joinDelim cfg.delimiter r.2.2) := rfl

theorem headerStep_over (cfg : Config) (st : ParseState)
    (r : Nat × Nat × List (List Char)) :
    (headerStep cfg st r).record_over_count = st.record_over_count := rfl

theorem headerStep_under (cfg : Config) (st : ParseState)
    (r : Nat × Nat × List (List Char)) :
    (headerStep cfg st r).record_under_count = st.record_under_count := rfl

theorem detailStep_header (cfg : Config) (st : ParseState)
    (r : Nat × Nat × List (List Char)) :
    (detailStep cfg st r).header_delimiter_count = st.header_delimiter_count := by
  simp only [detailStep]
  split_ifs <;> rfl

theorem detailStep_over (cfg : Config) (st : ParseState)
    (r : Nat × Nat × List (List Char)) :
    (detailStep cfg st r).record_over_count =
      st.record_over_count +
        (if st.header_delimiter_count < r.2.2.length - 1 then 1 else 0) := by
  simp only [detailStep]
  split_ifs <;> first | rfl | omega

theorem detailStep_under (cfg : Config) (st : ParseState)
    (r : Nat × Nat × List (List Char)) :
    (detailStep cfg st r).record_under_count =
      st.record_under_count +
        (if r.2.2.length - 1 < st.header_delimiter_count then 1 else 0) := by
  simp only [detailStep]
  split_ifs <;> first | rfl | omega

theorem detailStep_bad_records (cfg : Config) (st : ParseState)
    (r : Nat × Nat × List (List Char)) :
    (detailStep cfg st r).bad_records =
      if isBadRecord cfg st.header_delimiter_count r = true then
        upsertBad st.bad_records (keyOf r) (joinDelim cfg.delimiter r.2.2)
      else st.bad_records := by
  simp only [detailStep, isBadRecord, keyOf, save_bad_records, decide_eq_true_eq]
  split_ifs <;> first | rfl | omega

/-! ## Fold invariants over detail rows -/

theorem foldl_stepRecord_detail (cfg : Config) :
    ∀ (l : List (Nat × Nat × List (List Char))) (st : ParseState),
      (∀ y ∈ l, y.1 ≠ 1) →
      (l.foldl (stepRecord cfg) st).header_delimiter_count = st.header_delimiter_count ∧
      (l.foldl (stepRecord cfg) st).record_over_count =
        st.record_over_count +
          l.countP (fun y => decide (st.header_delimiter_count < y.2.2.length - 1)) ∧
      (l.foldl (stepRecord cfg) st).record_under_count =
        st.record_under_count +
          l.countP (fun y => decide (y.2.2.length - 1 < st.header_delimiter_count)) ∧
      (l.foldl (stepRecord cfg) st).bad_records =
        badFold cfg st.header_delimiter_count l st.bad_records := by
  intro l
  induction l with
  | nil => intro st _; simp [badFold]
  | cons y l ih =>
    intro st hne
    have hy : y.1 ≠ 1 := hne y (List.mem_cons_self y l)
    have hstep : stepRecord cfg st y = detailStep cfg (updCommon cfg st y) y :=
      stepRecord_of_detail cfg st y hy
    have hrest := ih (stepRecord cfg st y) (fun z hz => hne z (List.mem_cons_of_mem y hz))
    have hh : (stepRecord cfg st y).header_delimiter_count = st.header_delimiter_count := by
      rw [hstep, detailStep_header, updCommon_header]
    have hov : (stepRecord cfg st y).record_over_count =
        st.record_over_count +
          (if st.header_delimiter_count < y.2.2.length - 1 then 1 else 0) := by
      rw [hstep, detailStep_over, updCommon_over, updCommon_header]
    have hun : (stepRecord cfg st y).record_under_count =
        st.record_under_count +
          (if y.2.2.length - 1 < st.header_delimiter_count then 1 else 0) := by
      rw [hstep, detailStep_under, updCommon_under, updCommon_header]
    have hbad : (stepRecord cfg st y).bad_records =
        if isBadRecord cfg st.header_delimiter_count y = true then
          upsertBad st.bad_records (keyOf y) (joinDelim cfg.delimiter y.2.2)
        else st.bad_records := by
      rw [hstep, detailStep_bad_records, updCommon_header, updCommon_bad_records]
    refine ⟨?_, ?_, ?_, ?_⟩
    · rw [List.foldl_cons, hrest.1, hh]
    · rw [List.foldl_cons, hrest.2.1, hh, hov, List.countP_cons]
      by_cases hc : st.header_delimiter_count < y.2.2.length - 1 <;> simp [hc] <;> omega
    · rw [List.foldl_cons, hrest.2.2.1, hh, hun, List.countP_cons]
      by_cases hc : y.2.2.length - 1 < st.header_delimiter_count <;> simp [hc] <;> omega
    · rw [List.foldl_cons, hrest.2.2.2, hh, hbad, badFold, badFold, List.foldl_cons]

/-! ## Key-map lemmas -/

theorem badFold_nil (cfg : Config) (hdr : Nat) (m : List (List Char × List Char)) :
    badFold cfg hdr [] m = m := rfl

theorem badFold_cons (cfg : Config) (hdr : Nat) (y : Nat × Nat × List (List Char))
    (l : List (Nat × Nat × List (List Char))) (m : List (List Char × List Char)) :
    badFold cfg hdr (y :: l) m =
      badFold cfg hdr l
        (if isBadRecord cfg hdr y = true then
          upsertBad m (keyOf y) (joinDelim cfg.delimiter y.2.2)
        else m) := rfl

theorem upsertBad_of_not_mem (m : List (List Char × List Char)) (k v : List Char)
    (h : k ∉ m.map Prod.fst) : upsertBad m k v = m ++ [(k, v)] := by
  induction m with
  | nil => rfl
  | cons p rest ih =>
    simp only [List.map_cons, List.mem_cons] at h
    push_neg at h
    simp only [upsertBad]
    rw [if_neg (fun hk => h.1 hk.symm), ih h.2]
    rfl

theorem mem_keys_upsertBad_self (m : List (List Char × List Char)) (k v : List Char) :
    k ∈ (upsertBad m k v).map Prod.fst := by
  induction m with
  | nil => simp [upsertBad]
  | cons p rest ih =>
    simp only [upsertBad]
    by_cases hk : p.1 = k
    · rw [if_pos hk]; simp
    · rw [if_neg hk]
      simp only [List.map_cons, List.mem_cons]
      exact Or.inr ih

theorem mem_keys_upsertBad_of_mem (m : List (List Char × List Char)) (k v k' : List Char)
    (h : k' ∈ m.map Prod.fst) : k' ∈ (upsertBad m k v).map Prod.fst := by
  induction m with
  | nil => simp at h
  | cons p rest ih =>
    simp only [List.map_cons, List.mem_cons] at h
    simp only [upsertBad]
    by_cases hk : p.1 = k
    · rw [if_pos hk]
      simp only [List.map_cons, List.mem_cons]
      rcases h with h | h
      · exact Or.inl (h.trans hk)
      · exact Or.inr h
    · rw [if_neg hk]
      simp only [List.map_cons, List.mem_cons]
      rcases h with h | h
      · exact Or.inl h
      · exact Or.inr (ih h)

theorem mem_keys_badFold_of_mem (cfg : Config) (hdr : Nat) :
    ∀ (l : List (Nat × Nat × List (List Char))) (m : List (List Char × List Char))
      (k : List Char), k ∈ m.map Prod.fst → k ∈ (badFold cfg hdr l m).map Prod.fst := by
  intro l
  induction l with
  | nil => intro m k h; exact h
  | cons y l ih =>
    intro m k h
    rw [badFold_cons]
    by_cases hb : isBadRecord cfg hdr y = true
    · rw [if_pos hb]
      exact ih _ _ (mem_keys_upsertBad_of_mem m _ _ k h)
    · rw [if_neg hb]
      exact ih _ _ h

theorem mem_keys_badFold_of_bad (cfg : Config) (hdr : Nat) :
    ∀ (l : List (Nat × Nat × List (List Char))) (m : List (List Char × List Char))
      (y : Nat × Nat × List (List Char)), y ∈ l → isBadRecord cfg hdr y = true →
      keyOf y ∈ (badFold cfg hdr l m).map Prod.fst := by
  intro l
  induction l with
  | nil => intro m y h; exact absurd h (List.not_mem_nil y)
  | cons z l ih =>
    intro m y hy hb
    rw [badFold_cons]
    rcases List.mem_cons.mp hy with h | h
    · subst h
      rw [if_pos hb]
      exact mem_keys_badFold_of_mem cfg hdr l _ _ (mem_keys_upsertBad_self m _ _)
    · by_cases hz : isBadRecord cfg hdr z = true
      · rw [if_pos hz]; exact ih _ y h hb
      · rw [if_neg hz]; exact ih _ y h hb

theorem badFold_append_of_fresh (cfg : Config) (hdr : Nat) :
    ∀ (l : List (Nat × Nat × List (List Char))) (m : List (List Char × List Char)),
      (∀ y ∈ l, keyOf y ∉ m.map Prod.fst) →
      List.Pairwise (fun a b => keyOf a ≠ keyOf b) l →
      badFold cfg hdr l m =
        m ++ l.filterMap
          (fun y =>
            if isBadRecord cfg hdr y = true then
              some (keyOf y, joinDelim cfg.delimiter y.2.2)
            else none) := by
  intro l
  induction l with
  | nil => intro m _ _; simp [badFold_nil]
  | cons y l ih =>
    intro m hfresh hpair
    have hy : keyOf y ∉ m.map Prod.fst := hfresh y (List.mem_cons_self y l)
    have hpair' := (List.pairwise_cons.mp hpair)
    rw [badFold_cons, List.filterMap_cons]
    by_cases hb : isBadRecord cfg hdr y = true
    · rw [if_pos hb, if_pos hb]
      have hfresh' : ∀ z ∈ l, keyOf z ∉
          (upsertBad m (keyOf y) (joinDelim cfg.delimiter y.2.2)).map Prod.fst := by
        intro z hz hmem
        rw [upsertBad_of_not_mem m _ _ hy] at hmem
        simp only [List.map_append, List.mem_append, List.map_cons, List.map_nil,
          List.mem_cons, List.not_mem_nil, or_false] at hmem
        rcases hmem with h | h
        · exact hfresh z (List.mem_cons_of_mem y hz) h
        · exact hpair'.1 z hz h.symm
      rw [ih _ hfresh' hpair'.2, upsertBad_of_not_mem m _ _ hy, List.append_assoc]
      rfl
    · rw [if_neg hb, if_neg hb]
      exact ih _ (fun z hz => hfresh z (List.mem_cons_of_mem y hz)) hpair'.2

theorem two_le_length_of_two_keys (m : List (List Char × List Char)) (k1 k2 : List Char)
    (h1 : k1 ∈ m.map Prod.fst) (h2 : k2 ∈ m.map Prod.fst) (hne : k1 ≠ k2) :
    2 ≤ m.length := by
  match m with
  | [] => simp at h1
  | [p] =>
    simp only [List.map_cons, List.map_nil, List.mem_cons, List.not_mem_nil,
      or_false] at h1 h2
    exact absurd (h1.trans h2.symm) hne
  | p :: q :: rest => simp [Nat.succ_le_succ, Nat.le_add_left]

/-! ## Record-reader index lemmas -/

theorem readDelimitedAux_ctr_lt :
    ∀ (rows : List (List (List Char))) (c : Nat) (y : Nat × Nat × List (List Char)),
      y ∈ readDelimitedAux rows c → c < y.1 := by
  intro rows
  induction rows with
  | nil => intro c y h; exact absurd h (List.not_mem_nil y)
  | cons r rs ih =>
    intro c y h
    simp only [readDelimitedAux] at h
    by_cases hr : 0 < record_length_of r
    · rw [if_pos hr] at h
      rcases List.mem_cons.mp h with h | h
      · subst h; exact Nat.lt_succ_self c
      · exact Nat.lt_of_succ_lt (ih (c + 1) y h)
    · rw [if_neg hr] at h
      exact Nat.lt_of_succ_lt (ih (c + 1) y h)

theorem readDelimitedAux_pairwise :
    ∀ (rows : List (List (List Char))) (c : Nat),
      (readDelimitedAux rows c).Pairwise (fun a b => a.1 < b.1) := by
  intro rows
  induction rows with
  | nil => intro c; simp [readDelimitedAux]
  | cons r rs ih =>
    intro c
    simp only [readDelimitedAux]
    by_cases hr : 0 < record_length_of r
    · rw [if_pos hr]
      exact List.pairwise_cons.mpr
        ⟨fun y hy => readDelimitedAux_ctr_lt rs (c + 1) y hy, ih (c + 1)⟩
    · rw [if_neg hr]
      exact ih (c + 1)

/-! ## finishParse case lemmas -/

theorem finishParse_state (cfg : Config) (ts : List Char) (st : ParseState) :
    (finishParse cfg ts st).state = st := by
  simp only [finishParse]
  split_ifs <;> rfl

theorem finishParse_outcome_good_iff (cfg : Config) (ts : List Char) (st : ParseState) :
    (finishParse cfg ts st).outcome = Outcome.GOOD ↔ st.bad_records.length = 1 := by
  simp only [finishParse]
  split_ifs with h1 h2
  · simp only [true_iff]; omega
  · simp only [reduceCtorEq, false_iff]; omega
  · simp only [reduceCtorEq, false_iff]; omega

theorem finishParse_outcome_fair_iff (cfg : Config) (ts : List Char) (st : ParseState) :
    (finishParse cfg ts st).outcome = Outcome.FAIR ↔
      (st.bad_records.length ≠ 1 ∧ cfg.ignore_over_count = true ∧
        0 < st.record_over_count ∧ st.record_under_count = 0) := by
  simp only [finishParse]
  split_ifs with h1 h2
  · simp only [reduceCtorEq, false_iff]
    intro h; exact h.1 (by omega)
  · simp only [true_iff]
    exact ⟨by omega, h2⟩
  · simp only [reduceCtorEq, false_iff]
    intro h; exact h2 h.2

theorem finishParse_ret (cfg : Config) (ts : List Char) (st : ParseState) :
    (finishParse cfg ts st).ret =
      if (finishParse cfg ts st).outcome = Outcome.BAD then 0
      else st.header_delimiter_count := by
  simp only [finishParse]
  split_ifs <;> simp_all

/-! ## Decimal-key arithmetic: the composite key determines
`record_count * 10000 + delimiter_count` -/

theorem keyStep_digitChar (a m : Nat) (h : m < 10) :
    keyStep a (Nat.digitChar m) = a * 10 + m := by
  interval_cases m <;> rfl

theorem foldl_keyStep_natDigitsAux :
    ∀ (fuel n acc : Nat), n < fuel →
      (natDigitsAux fuel n).foldl keyStep acc =
        acc * 10 ^ (natDigitsAux fuel n).length + n := by
  intro fuel
  induction fuel with
  | zero => intro n acc h; omega
  | succ fuel ih =>
    intro n acc h
    by_cases h10 : n < 10
    · simp only [natDigitsAux, if_pos h10, List.foldl_cons, List.foldl_nil,
        List.length_cons, List.length_nil]
      rw [keyStep_digitChar _ _ h10]
      simp
    · simp only [natDigitsAux, if_neg h10, List.foldl_append, List.length_append,
        List.length_cons, List.length_nil]
      have hdiv : n / 10 < fuel := by
        have := Nat.div_lt_self (show 0 < n by omega) (show 1 < 10 by omega)
        omega
      rw [ih (n / 10) acc hdiv]
      simp only [List.foldl_cons, List.foldl_nil]
      rw [keyStep_digitChar _ _ (Nat.mod_lt n (by omega))]
      rw [pow_succ, ← mul_assoc]
      generalize acc * 10 ^ (natDigitsAux fuel (n / 10)).length = A
      omega

theorem natDigitsAux_length_le :
    ∀ (fuel n k : Nat), n < fuel → n < 10 ^ k → 0 < k →
      (natDigitsAux fuel n).length ≤ k := by
  intro fuel
  induction fuel with
  | zero => intro n k h; omega
  | succ fuel ih =>
    intro n k h hk h0
    by_cases h10 : n < 10
    · simp only [natDigitsAux, if_pos h10, List.length_cons, List.length_nil]
      omega
    · simp only [natDigitsAux, if_neg h10, List.length_append, List.length_cons,
        List.length_nil]
      have hk2 : 2 ≤ k := by
        by_contra hc
        have hk1 : k = 1 := by omega
        subst hk1
        simp only [pow_one] at hk
        omega
      have hdiv : n / 10 < fuel := by
        have := Nat.div_lt_self (show 0 < n by omega) (show 1 < 10 by omega)
        omega
      have hdivk : n / 10 < 10 ^ (k - 1) := by
        have hpow : 10 ^ (k - 1) * 10 = 10 ^ k := by
          rw [← pow_succ]
          congr 1
          omega
        exact Nat.div_lt_of_lt_mul (by omega)
      have := ih (n / 10) (k - 1) hdiv hdivk (by omega)
      omega

theorem foldl_keyStep_replicate_zero (j acc : Nat) :
    (List.replicate j '0').foldl keyStep acc = acc * 10 ^ j := by
  induction j generalizing acc with
  | zero => simp
  | succ j ih =>
    rw [List.replicate_succ, List.foldl_cons]
    have h0 : keyStep acc '0' = acc * 10 := rfl
    rw [h0, ih]
    ring

theorem keyVal_fmtKey (rc d : Nat) : keyVal (fmtKey rc d) = rc * 10000 + d := by
  have hq : ∀ m : Nat, (natDigits m).foldl keyStep 0 = m := by
    intro m
    have := foldl_keyStep_natDigitsAux (m + 1) m 0 (Nat.lt_succ_self m)
    simpa [natDigits] using this
  have hlen2 : (natDigits ((rc * 10000 + d) % 10000)).length ≤ 4 := by
    have hm : (rc * 10000 + d) % 10000 < 10 ^ 4 := by
      have := Nat.mod_lt (rc * 10000 + d) (show 0 < 10000 by omega)
      norm_num
      omega
    exact natDigitsAux_length_le _ _ 4 (Nat.lt_succ_self _) hm (by omega)
  unfold keyVal fmtKey padLeftZeros
  rw [List.foldl_append, foldl_keyStep_replicate_zero, zero_mul, List.foldl_append, hq,
    List.foldl_cons]
  have hdot : keyStep ((rc * 10000 + d) / 10000) '.' = (rc * 10000 + d) / 10000 := rfl
  rw [hdot, List.foldl_append, foldl_keyStep_replicate_zero]
  simp only [natDigits]
  rw [foldl_keyStep_natDigitsAux _ _ _ (Nat.lt_succ_self _)]
  rw [mul_assoc, ← pow_add]
  rw [Nat.sub_add_cancel (by simpa [natDigits] using hlen2)]
  have h4 : (10 : Nat) ^ 4 = 10000 := by norm_num
  rw [h4]
  omega

theorem fmtKey_inj_val (rc1 d1 rc2 d2 : Nat) (h : fmtKey rc1 d1 = fmtKey rc2 d2) :
    rc1 * 10000 + d1 = rc2 * 10000 + d2 := by
  have h1 := keyVal_fmtKey rc1 d1
  rw [h, keyVal_fmtKey] at h1
  omega

theorem fmtKey_inj_of_lt (rc1 d1 rc2 d2 : Nat) (h1 : d1 < 10000) (h2 : d2 < 10000)
    (h : fmtKey rc1 d1 = fmtKey rc2 d2) : rc1 = rc2 ∧ d1 = d2 := by
  have := fmtKey_inj_val rc1 d1 rc2 d2 h
  omega

/-! ## Derived facts about parse_records -/

theorem parse_records_ret (cfg : Config) (ts content : List Char) :
    (parse_records cfg ts content).ret =
      if (parse_records cfg ts content).outcome = Outcome.BAD then 0
      else (parse_records cfg ts content).state.header_delimiter_count := by
  unfold parse_records
  rw [finishParse_ret, finishParse_state]

theorem badFold_id_of_none (cfg : Config) (hdr : Nat) :
    ∀ (l : List (Nat × Nat × List (List Char))) (m : List (List Char × List Char)),
      (∀ y ∈ l, isBadRecord cfg hdr y = false) → badFold cfg hdr l m = m := by
  intro l
  induction l with
  | nil => intro m _; rfl
  | cons y l ih =>
    intro m hn
    rw [badFold_cons, if_neg (by simp [hn y (List.mem_cons_self y l)])]
    exact ih _ (fun z hz => hn z (List.mem_cons_of_mem y hz))

theorem badEntriesOf_length (cfg : Config) (hdr : Nat) :
    ∀ l : List (Nat × Nat × List (List Char)),
      (badEntriesOf cfg hdr l).length = l.countP (isBadRecord cfg hdr) := by
  intro l
  induction l with
  | nil => rfl
  | cons y l ih =>
    simp only [badEntriesOf, List.filterMap_cons, List.countP_cons]
    by_cases hb : isBadRecord cfg hdr y = true
    · rw [if_pos hb]
      simp only [List.length_cons, hb, if_pos]
      rw [← badEntriesOf] at *
      omega
    · rw [if_neg hb]
      simp only [Bool.not_eq_true] at hb
      simp only [hb]
      rw [← badEntriesOf] at *
      simp [ih]

theorem mem_keys_badEntriesOf (cfg : Config) (hdr : Nat) :
    ∀ (l : List (Nat × Nat × List (List Char))) (k : List Char),
      k ∈ (badEntriesOf cfg hdr l).map Prod.fst → ∃ y ∈ l, k = keyOf y := by
  intro l
  induction l with
  | nil => intro k h; simp [badEntriesOf] at h
  | cons y l ih =>
    intro k h
    simp only [badEntriesOf, List.filterMap_cons] at h
    by_cases hb : isBadRecord cfg hdr y = true
    · rw [if_pos hb] at h
      simp only [List.map_cons, List.mem_cons] at h
      rcases h with h | h
      · exact ⟨y, List.mem_cons_self y l, h⟩
      · obtain ⟨z, hz, hk⟩ := ih k h
        exact ⟨z, List.mem_cons_of_mem y hz, hk⟩
    · rw [if_neg hb] at h
      obtain ⟨z, hz, hk⟩ := ih k h
      exact ⟨z, List.mem_cons_of_mem y hz, hk⟩

theorem keys_badEntriesOf_nodup (cfg : Config) (hdr : Nat) :
    ∀ l : List (Nat × Nat × List (List Char)),
      l.Pairwise (fun a b => keyOf a ≠ keyOf b) →
      ((badEntriesOf cfg hdr l).map Prod.fst).Nodup := by
  intro l
  induction l with
  | nil => intro _; simp [badEntriesOf]
  | cons y l ih =>
    intro hp
    have hp' := List.pairwise_cons.mp hp
    simp only [badEntriesOf, List.filterMap_cons]
    by_cases hb : isBadRecord cfg hdr y = true
    · rw [if_pos hb]
      simp only [List.map_cons, List.nodup_cons]
      refine ⟨?_, ih hp'.2⟩
      intro hmem
      obtain ⟨z, hz, hk⟩ := mem_keys_badEntriesOf cfg hdr l _ hmem
      exact hp'.1 z hz hk
    · rw [if_neg hb]
      exact ih hp'.2

/-! ## Claim C7 -/

/-- Claim C7 (corrected): a blank csv row is skipped (not yielded, hence it
touches no statistics), but it does consume a record index: inserting a
blank line between two rows shifts the second yielded record's index from
2 to 3. -/
theorem blank_row_shifts_indices :
    (read_delimited_record ',' "a\nb".toList).map (fun r => r.1) = [1, 2] ∧
    (read_delimited_record ',' "a\n\nb".toList).map (fun r => r.1) = [1, 3] := by
  decide

/-- Claim C7 (amended): the reader yields exactly the csv rows whose
computed length is positive, each paired with its 1-based position among
ALL csv rows, blank rows included — so blank rows are skipped and affect no
statistics, but each one does consume a record index. -/
theorem read_skips_blank_rows_but_counts_them (d : Char) (content : List Char) :
    read_delimited_record d content =
      (rowsWithIndexFrom 1 (csvParse d content)).filterMap
        (fun p =>
          if 0 < record_length_of p.2 then
            some (p.1, (record_length_of p.2).toNat, p.2)
          else none) := by
  have aux : ∀ (rows : List (List (List Char))) (c : Nat),
      readDelimitedAux rows c =
        (rowsWithIndexFrom (c + 1) rows).filterMap
          (fun p =>
            if 0 < record_length_of p.2 then
              some (p.1, (record_length_of p.2).toNat, p.2)
            else none) := by
    intro rows
    induction rows with
    | nil => intro c; rfl
    | cons r rs ih =>
      intro c
      simp only [readDelimitedAux, rowsWithIndexFrom, List.filterMap_cons]
      by_cases hr : 0 < record_length_of r
      · rw [if_pos hr, if_pos hr, ih]
      · rw [if_neg hr, if_neg hr, ih]
  exact aux _ 0

/-! ## Claim C10 -/

/-- Claim C10: a file with zero non-blank csv rows yields no records, so the
loop never runs, the bad-record map stays empty (no header placeholder),
`len(bad_records) - 1 = -1` fails both the GOOD and the FAIR test, and the
run falls through to BAD with return value 0. -/
theorem empty_file_outcome_bad (cfg : Config) (ts content : List Char)
    (hempty : read_delimited_record cfg.delimiter content = []) :
    (parse_records cfg ts content).outcome = Outcome.BAD ∧
    (parse_records cfg ts content).ret = 0 ∧
    (parse_records cfg ts content).state.bad_records = [] := by
  unfold parse_records
  rw [hempty]
  simp only [List.foldl_nil]
  unfold finishParse
  rw [if_neg (by decide), if_neg (by simp [initParseState])]
  exact ⟨rfl, rfl, rfl⟩

theorem empty_file_outcome_bad_witness :
    (parse_records cfgDefault tsRun "".toList).outcome = Outcome.BAD ∧
    (parse_records cfgDefault tsRun "".toList).ret = 0 ∧
    (parse_records cfgDefault tsRun "".toList).state.bad_records = [] :=
  empty_file_outcome_bad cfgDefault tsRun "".toList (by decide)

/-! ## Claim C8 -/

/-- Claim C8 (corrected): a FAIR outcome also skips the artifact: with the
write option enabled and a FAIR run, no detail report is written, refuting
"written exactly when write-output is enabled and the outcome is not
GOOD". -/
theorem fair_run_writes_no_artifact :
    cfgIgnoreWrite.write_output_file = true ∧
    (parse_records cfgIgnoreWrite tsRun contentFair).outcome = Outcome.FAIR ∧
    (parse_records cfgIgnoreWrite tsRun contentFair).writtenPath = none := by
  decide

/-- Claim C8 (amended): the detail report is written exactly when the
write-output option is enabled AND the outcome is BAD; its path is the
input path plus `"_" ++ timestamp ++ ".ERROR_DELIMITER"`, the timestamp
being fixed once per process (a single `ts` parameter for the whole
run). -/
theorem artifact_written_iff_bad (cfg : Config) (ts content : List Char) :
    (parse_records cfg ts content).writtenPath =
      if cfg.write_output_file = true ∧
          (parse_records cfg ts content).outcome = Outcome.BAD then
        some (cfg.filename ++ '_' :: ts ++ ".ERROR_DELIMITER".toList)
      else none := by
  unfold parse_records
  generalize (read_delimited_record cfg.delimiter content).foldl
    (stepRecord cfg) initParseState = st
  unfold finishParse FILESUFFIX ERROR_DELIMITER_FILE_SUFFIX
  split_ifs <;> simp_all

/-! ## Claim C5 -/

/-- Claim C5 (corrected): a single-column file is classified GOOD, yet the
process exits 1, because `parse_records` returns the header delimiter
count 0, which is falsy in the `if pdf.parse_records():` test. -/
theorem good_single_column_exits_one :
    (parse_records cfgDefault tsRun contentSingleCol).outcome = Outcome.GOOD ∧
    runExitCode cfgDefault tsRun (FileInput.found contentSingleCol) = 1 := by
  decide

/-- Claim C5 (amended): the exit code is 0 exactly when the file is read,
the outcome is GOOD or FAIR, and the header delimiter count is non-zero; it
is non-zero on a BAD outcome, a missing file, a decode error, or a
single-field header. -/
theorem exit_zero_iff_not_bad_and_header_nonzero (cfg : Config) (ts : List Char)
    (inp : FileInput) :
    runExitCode cfg ts inp = 0 ↔
      ∃ c, inp = FileInput.found c ∧
        (parse_records cfg ts c).outcome ≠ Outcome.BAD ∧
        (parse_records cfg ts c).state.header_delimiter_count ≠ 0 := by
  cases inp with
  | notFound => simp [runExitCode]
  | decodeError => simp [runExitCode]
  | found c =>
    simp only [runExitCode, FileInput.found.injEq]
    rw [parse_records_ret cfg ts c]
    by_cases hb : (parse_records cfg ts c).outcome = Outcome.BAD
    · simp [hb]
    · by_cases hh : (parse_records cfg ts c).state.header_delimiter_count = 0 <;>
        simp [hb, hh]

/-! ## Claim C4 -/

/-- Claim C4: with an explicit expected delimiter count configured, a detail
row is stored as a bad record exactly when its delimiter count differs from
the header count or from the expected count; and scenario D (header count
2, all details matching the header, expected count 3) ends BAD with return
value 0. -/
theorem bad_record_iff_header_or_expected_mismatch :
    (∀ (cfg : Config) (st : ParseState) (rc rl : Nat) (fields : List (List Char)),
        0 < cfg.expected_delimiter_count → rc ≠ 1 → fields ≠ [] →
        (stepRecord cfg st (rc, rl, fields)).bad_records =
          (if st.header_delimiter_count ≠ fields.length - 1 ∨
              fields.length - 1 ≠ cfg.expected_delimiter_count then
            upsertBad st.bad_records (fmtKey rc (fields.length - 1))
              (joinDelim cfg.delimiter fields)
          else st.bad_records)) ∧
    (parse_records cfgExpected3 tsRun contentScenarioD).outcome = Outcome.BAD ∧
    (parse_records cfgExpected3 tsRun contentScenarioD).ret = 0 := by
  refine ⟨?_, by decide, by decide⟩
  intro cfg st rc rl fields hexp hrc _
  rw [stepRecord_of_detail cfg st _ hrc, detailStep_bad_records, updCommon_header,
    updCommon_bad_records]
  simp only [isBadRecord, keyOf, decide_eq_true_eq]
  by_cases hcond : st.header_delimiter_count ≠ fields.length - 1 ∨
      fields.length - 1 ≠ cfg.expected_delimiter_count
  · rw [if_pos hcond, if_pos (by tauto)]
  · rw [if_neg hcond, if_neg (by tauto)]

theorem bad_record_iff_header_or_expected_mismatch_witness :
    0 < cfgExpected3.expected_delimiter_count ∧
    (stepRecord cfgExpected3 initParseState (2, 3, [['x'], ['y']])).bad_records =
      (if initParseState.header_delimiter_count ≠ [['x'], ['y']].length - 1 ∨
          [['x'], ['y']].length - 1 ≠ cfgExpected3.expected_delimiter_count then
        upsertBad initParseState.bad_records (fmtKey 2 ([['x'], ['y']].length - 1))
          (joinDelim cfgExpected3.delimiter [['x'], ['y']])
      else initParseState.bad_records) :=
  ⟨by decide,
    bad_record_iff_header_or_expected_mismatch.1 cfgExpected3 initParseState 2 3
      [['x'], ['y']] (by decide) (by decide) (by decide)⟩

/-! ## Claim C9 -/

set_option maxRecDepth 100000 in
/-- Claim C9 (code bug): the report keeps at most the threshold count of
entries, but the truncation notice is dead code: the `elif counter ==
threshold` arm sits under a failed `counter <= threshold`, so it can never
fire.  First conjunct: the flag is false on every input.  Second: on a run
with 102 bad-map entries (101 bad details plus the header placeholder), the
report holds exactly the threshold count of entries and no notice was
logged. -/
theorem truncation_notice_never_logged :
    (∀ (bad : List (List Char × List Char)) (ks : List (List Char)) (c : Nat),
        (reportLoopAux bad ks c).2 = false) ∧
    ((parse_records cfgDefault tsRun contentManyBad).state.bad_records.length = 102 ∧
      (parse_records cfgDefault tsRun contentManyBad).reportEntries.length =
        BAD_RECORD_REPORTING_THRESHOLD ∧
      (parse_records cfgDefault tsRun contentManyBad).truncationLogged = false) := by
  constructor
  · intro bad ks
    induction ks with
    | nil => intro c; rfl
    | cons k ks ih =>
      intro c
      simp only [reportLoopAux]
      by_cases h1 : c ≤ BAD_RECORD_REPORTING_THRESHOLD
      · rw [if_pos h1]
        exact ih (c + 1)
      · rw [if_neg h1, if_neg (by simp only [BAD_RECORD_REPORTING_THRESHOLD] at h1 ⊢; omega)]
        exact ih (c + 1)
  · decide

/-! ## Claim C1 -/

/-- Claim C1: for a run without an explicit expected delimiter count, if the
file has a header record (a yielded record with index 1, i.e. its first csv
row is non-blank) and every detail record's field count equals the
header's, the outcome is GOOD and the return value is the header field
count minus one (`headerDelimiterCount`). -/
theorem all_match_outcome_good (cfg : Config) (ts content : List Char)
    (h : Nat × Nat × List (List Char)) (t : List (Nat × Nat × List (List Char)))
    (hexp : cfg.expected_delimiter_count = 0)
    (hread : read_delimited_record cfg.delimiter content = h :: t)
    (hidx : h.1 = 1)
    (hall : ∀ y ∈ t, y.2.2.length = h.2.2.length) :
    (parse_records cfg ts content).outcome = Outcome.GOOD ∧
    (parse_records cfg ts content).ret = h.2.2.length - 1 := by
  have hpair : (h :: t).Pairwise (fun a b => a.1 < b.1) := by
    rw [← hread]
    exact readDelimitedAux_pairwise (csvParse cfg.delimiter content) 0
  have htail : ∀ y ∈ t, y.1 ≠ 1 := by
    intro y hy
    have h1 := (List.pairwise_cons.mp hpair).1 y hy
    omega
  unfold parse_records
  rw [hread, List.foldl_cons]
  have hs := stepRecord_of_header cfg initParseState h hidx
  have hst1hdr : (stepRecord cfg initParseState h).header_delimiter_count =
      h.2.2.length - 1 := by
    rw [hs, headerStep_header]
  have hst1bad : (stepRecord cfg initParseState h).bad_records =
      [(fmtKey 1 (h.2.2.length - 1), joinDelim cfg.delimiter h.2.2)] := by
    rw [hs, headerStep_bad_records, updCommon_bad_records, hidx]
    rfl
  obtain ⟨hh, -, -, hbad⟩ :=
    foldl_stepRecord_detail cfg t (stepRecord cfg initParseState h) htail
  have hnone : ∀ y ∈ t,
      isBadRecord cfg (stepRecord cfg initParseState h).header_delimiter_count y =
        false := by
    intro y hy
    simp only [isBadRecord, decide_eq_false_iff_not, not_or]
    refine ⟨?_, ?_⟩
    · rw [hst1hdr, hall y hy]
      simp
    · simp [hexp]
  have hfix : (t.foldl (stepRecord cfg) (stepRecord cfg initParseState h)).bad_records =
      (stepRecord cfg initParseState h).bad_records := by
    rw [hbad, badFold_id_of_none cfg _ t _ hnone]
  have hgood :
      (finishParse cfg ts
        (t.foldl (stepRecord cfg) (stepRecord cfg initParseState h))).outcome =
        Outcome.GOOD := by
    rw [finishParse_outcome_good_iff, hfix, hst1bad]
    rfl
  refine ⟨hgood, ?_⟩
  rw [finishParse_ret, if_neg (by simp [hgood]), hh, hst1hdr]

theorem all_match_outcome_good_witness :
    (parse_records cfgDefault tsRun contentTwoByTwo).outcome = Outcome.GOOD ∧
    (parse_records cfgDefault tsRun contentTwoByTwo).ret = 1 :=
  all_match_outcome_good cfgDefault tsRun contentTwoByTwo (1, 3, [['a'], ['b']])
    [(2, 3, [['c'], ['d']])] (by decide) (by decide) (by decide) (by decide)

/-! ## Claim C3 -/

/-- Claim C3 (corrected): a FAIR outcome can coexist with a non-over-count
mismatch.  With an explicit expected count of 5 and ignore-over-count
enabled, record 2 (`p,q,r`) matches the header count (an equal-count
record) but fails the expected-count test, so it is stored as a mismatch,
yet the outcome is FAIR — refuting "FAIR iff the only mismatches present
are over-count mismatches". -/
theorem fair_with_equal_count_mismatch :
    (parse_records cfgExpected5Ignore tsRun contentExpectedFair).outcome =
      Outcome.FAIR ∧
    (parse_records cfgExpected5Ignore tsRun
      contentExpectedFair).state.record_equal_count = 1 ∧
    (fmtKey 2 2, "p,q,r".toList) ∈
      (parse_records cfgExpected5Ignore tsRun contentExpectedFair).state.bad_records := by
  decide

/-- Claim C3 (amended): for a file with a header record, the outcome is FAIR
iff ignore-over-count is enabled, at least one detail record is over-count,
and no detail record is under-count (equal-count records mismatching an
explicit expected count may also be present); a FAIR run returns
`headerDelimiterCount`. -/
theorem fair_iff_over_and_no_under (cfg : Config) (ts content : List Char)
    (h : Nat × Nat × List (List Char)) (t : List (Nat × Nat × List (List Char)))
    (hread : read_delimited_record cfg.delimiter content = h :: t)
    (hidx : h.1 = 1) :
    ((parse_records cfg ts content).outcome = Outcome.FAIR ↔
      (cfg.ignore_over_count = true ∧
        (∃ y ∈ t, h.2.2.length - 1 < y.2.2.length - 1) ∧
        (∀ y ∈ t, ¬(y.2.2.length - 1 < h.2.2.length - 1)))) ∧
    ((parse_records cfg ts content).outcome = Outcome.FAIR →
      (parse_records cfg ts content).ret = h.2.2.length - 1) := by
  have hpair : (h :: t).Pairwise (fun a b => a.1 < b.1) := by
    rw [← hread]
    exact readDelimitedAux_pairwise (csvParse cfg.delimiter content) 0
  have htail : ∀ y ∈ t, y.1 ≠ 1 := by
    intro y hy
    have h1 := (List.pairwise_cons.mp hpair).1 y hy
    omega
  have htail2 : ∀ y ∈ t, 2 ≤ y.1 := by
    intro y hy
    have h1 := (List.pairwise_cons.mp hpair).1 y hy
    omega
  have hs := stepRecord_of_header cfg initParseState h hidx
  have hhdr1 : (stepRecord cfg initParseState h).header_delimiter_count =
      h.2.2.length - 1 := by rw [hs, headerStep_header]
  have hbad1 : (stepRecord cfg initParseState h).bad_records =
      [(fmtKey 1 (h.2.2.length - 1), joinDelim cfg.delimiter h.2.2)] := by
    rw [hs, headerStep_bad_records, updCommon_bad_records, hidx]
    rfl
  have hover1 : (stepRecord cfg initParseState h).record_over_count = 0 := by
    rw [hs, headerStep_over, updCommon_over]
    rfl
  have hunder1 : (stepRecord cfg initParseState h).record_under_count = 0 := by
    rw [hs, headerStep_under, updCommon_under]
    rfl
  obtain ⟨hh, hov, hun, hbad⟩ :=
    foldl_stepRecord_detail cfg t (stepRecord cfg initParseState h) htail
  rw [hhdr1] at hov hun hbad
  rw [hover1] at hov
  rw [hunder1] at hun
  have hovIff :
      (0 < (t.foldl (stepRecord cfg)
        (stepRecord cfg initParseState h)).record_over_count) ↔
        ∃ y ∈ t, h.2.2.length - 1 < y.2.2.length - 1 := by
    rw [hov, Nat.zero_add]
    constructor
    · intro hp
      obtain ⟨y, hy, hp⟩ := List.countP_pos.mp hp
      exact ⟨y, hy, by simpa using hp⟩
    · rintro ⟨y, hy, hlt⟩
      exact List.countP_pos.mpr ⟨y, hy, by simpa using hlt⟩
  have hunIff :
      ((t.foldl (stepRecord cfg)
        (stepRecord cfg initParseState h)).record_under_count = 0) ↔
        ∀ y ∈ t, ¬(y.2.2.length - 1 < h.2.2.length - 1) := by
    rw [hun, Nat.zero_add]
    constructor
    · intro hz y hy
      have := List.countP_eq_zero.mp hz y hy
      simpa using this
    · intro hall
      exact List.countP_eq_zero.mpr (fun y hy => by simpa using hall y hy)
  have hkeymem : (∃ y ∈ t, h.2.2.length - 1 < y.2.2.length - 1) →
      2 ≤ (t.foldl (stepRecord cfg)
        (stepRecord cfg initParseState h)).bad_records.length := by
    rintro ⟨y0, hy0, hlt⟩
    have hk0 : fmtKey 1 (h.2.2.length - 1) ∈
        ((t.foldl (stepRecord cfg)
          (stepRecord cfg initParseState h)).bad_records).map Prod.fst := by
      rw [hbad]
      apply mem_keys_badFold_of_mem
      rw [hbad1]
      simp
    have hky : keyOf y0 ∈
        ((t.foldl (stepRecord cfg)
          (stepRecord cfg initParseState h)).bad_records).map Prod.fst := by
      rw [hbad]
      apply mem_keys_badFold_of_bad cfg _ t _ y0 hy0
      simp only [isBadRecord, decide_eq_true_eq]
      left
      omega
    have hne : fmtKey 1 (h.2.2.length - 1) ≠ keyOf y0 := by
      intro he
      simp only [keyOf] at he
      have hv := fmtKey_inj_val _ _ _ _ he
      have h2 := htail2 y0 hy0
      omega
    exact two_le_length_of_two_keys _ _ _ hk0 hky hne
  unfold parse_records
  rw [hread, List.foldl_cons]
  constructor
  · rw [finishParse_outcome_fair_iff]
    constructor
    · rintro ⟨hlen, hig, hpos, hz⟩
      exact ⟨hig, hovIff.mp hpos, hunIff.mp hz⟩
    · rintro ⟨hig, hex, hnone⟩
      refine ⟨?_, hig, hovIff.mpr hex, hunIff.mpr hnone⟩
      have := hkeymem hex
      omega
  · intro hfair
    rw [finishParse_ret, if_neg (by simp [hfair]), hh, hhdr1]

theorem fair_iff_over_and_no_under_witness :
    ((parse_records cfgIgnoreWrite tsRun contentFair).outcome = Outcome.FAIR ↔
      (cfgIgnoreWrite.ignore_over_count = true ∧
        (∃ y ∈ [((2 : Nat), (5 : Nat), [['q'], ['w'], ['e']])],
          1 < y.2.2.length - 1) ∧
        (∀ y ∈ [((2 : Nat), (5 : Nat), [['q'], ['w'], ['e']])],
          ¬(y.2.2.length - 1 < 1)))) ∧
    ((parse_records cfgIgnoreWrite tsRun contentFair).outcome = Outcome.FAIR →
      (parse_records cfgIgnoreWrite tsRun contentFair).ret = 1) :=
  fair_iff_over_and_no_under cfgIgnoreWrite tsRun contentFair (1, 3, [['a'], ['b']])
    [(2, 5, [['q'], ['w'], ['e']])] (by decide) (by decide)

/-! ## Claim C6 -/

/-- Claim C6 (corrected): when the first csv row is blank, no header
placeholder is stored: the file `"\na\nb,c"` has a detail record (index 3,
2 fields) that mismatches the first yielded record (index 2, 1 field), yet
the bad-record map holds a single entry — not one more than the bad-record
count — and the outcome is GOOD despite the mismatch (over-count 1). -/
theorem leading_blank_breaks_bad_map_invariant :
    read_delimited_record ',' contentLeadingBlank =
      [(2, 1, [['a']]), (3, 3, [['b'], ['c']])] ∧
    (parse_records cfgDefault tsRun contentLeadingBlank).outcome = Outcome.GOOD ∧
    (parse_records cfgDefault tsRun
      contentLeadingBlank).state.bad_records.length = 1 ∧
    (parse_records cfgDefault tsRun contentLeadingBlank).state.record_over_count = 1 := by
  decide

/-- Claim C6 (amended): provided the file has a header record (record index
1 exists) and every record has at most 10000 fields (the key format's digit
budget, a documented limit of the `index + count/10000` encoding), the
bad-record map holds the header placeholder plus exactly one entry per
mismatched detail record, all composite keys are distinct, and the outcome
is GOOD iff there are no mismatched detail records. -/
theorem bad_map_size_with_bounded_counts (cfg : Config) (ts content : List Char)
    (h : Nat × Nat × List (List Char)) (t : List (Nat × Nat × List (List Char)))
    (hread : read_delimited_record cfg.delimiter content = h :: t)
    (hidx : h.1 = 1)
    (hbound : ∀ y ∈ h :: t, y.2.2.length ≤ 10000) :
    (parse_records cfg ts content).state.bad_records.length =
      1 + t.countP (isBadRecord cfg (h.2.2.length - 1)) ∧
    ((parse_records cfg ts content).outcome = Outcome.GOOD ↔
      t.countP (isBadRecord cfg (h.2.2.length - 1)) = 0) ∧
    ((parse_records cfg ts content).state.bad_records.map Prod.fst).Nodup := by
  have hpair : (h :: t).Pairwise (fun a b => a.1 < b.1) := by
    rw [← hread]
    exact readDelimitedAux_pairwise (csvParse cfg.delimiter content) 0
  have htail : ∀ y ∈ t, y.1 ≠ 1 := by
    intro y hy
    have h1 := (List.pairwise_cons.mp hpair).1 y hy
    omega
  have hs := stepRecord_of_header cfg initParseState h hidx
  have hhdr1 : (stepRecord cfg initParseState h).header_delimiter_count =
      h.2.2.length - 1 := by rw [hs, headerStep_header]
  have hbad1 : (stepRecord cfg initParseState h).bad_records =
      [(fmtKey 1 (h.2.2.length - 1), joinDelim cfg.delimiter h.2.2)] := by
    rw [hs, headerStep_bad_records, updCommon_bad_records, hidx]
    rfl
  obtain ⟨hh, -, -, hbad⟩ :=
    foldl_stepRecord_detail cfg t (stepRecord cfg initParseState h) htail
  rw [hhdr1] at hbad
  have hdlt : ∀ y ∈ h :: t, y.2.2.length - 1 < 10000 := by
    intro y hy
    have := hbound y hy
    omega
  have hfresh : ∀ y ∈ t, keyOf y ∉
      ((stepRecord cfg initParseState h).bad_records).map Prod.fst := by
    intro y hy hmem
    rw [hbad1] at hmem
    simp only [List.map_cons, List.map_nil, List.mem_cons, List.not_mem_nil,
      or_false] at hmem
    simp only [keyOf] at hmem
    have := fmtKey_inj_of_lt _ _ _ _ (hdlt y (List.mem_cons_of_mem h hy))
      (hdlt h (List.mem_cons_self h t)) hmem
    exact (htail y hy) this.1
  have hkeys : t.Pairwise (fun a b => keyOf a ≠ keyOf b) := by
    have hp := (List.pairwise_cons.mp hpair).2
    refine hp.imp_of_mem ?_
    intro a b ha hb hab he
    simp only [keyOf] at he
    have := fmtKey_inj_of_lt _ _ _ _ (hdlt a (List.mem_cons_of_mem h ha))
      (hdlt b (List.mem_cons_of_mem h hb)) he
    omega
  have hmap : (t.foldl (stepRecord cfg)
      (stepRecord cfg initParseState h)).bad_records =
      (stepRecord cfg initParseState h).bad_records ++
        badEntriesOf cfg (h.2.2.length - 1) t := by
    rw [hbad]
    exact badFold_append_of_fresh cfg _ t _ hfresh hkeys
  unfold parse_records
  rw [hread, List.foldl_cons]
  refine ⟨?_, ?_, ?_⟩
  · rw [finishParse_state, hmap, List.length_append, hbad1, badEntriesOf_length]
    simp
  · rw [finishParse_outcome_good_iff, hmap, List.length_append, hbad1,
      badEntriesOf_length]
    simp only [List.length_cons, List.length_nil]
    omega
  · rw [finishParse_state, hmap, List.map_append, hbad1]
    rw [List.nodup_append]
    refine ⟨by simp, keys_badEntriesOf_nodup cfg _ t hkeys, ?_⟩
    intro a ha hb
    simp only [List.map_cons, List.map_nil, List.mem_cons, List.not_mem_nil,
      or_false] at ha
    obtain ⟨z, hz, hk⟩ := mem_keys_badEntriesOf cfg _ t a hb
    rw [ha] at hk
    simp only [keyOf] at hk
    have := fmtKey_inj_of_lt _ _ _ _ (hdlt h (List.mem_cons_self h t))
      (hdlt z (List.mem_cons_of_mem h hz)) hk
    exact (htail z hz) this.1.symm

theorem bad_map_size_with_bounded_counts_witness :
    (parse_records cfgDefault tsRun contentOneBad).state.bad_records.length =
      1 + [((2 : Nat), (1 : Nat), [['x']]),
        (3, 3, [['y'], ['z']])].countP (isBadRecord cfgDefault 1) ∧
    ((parse_records cfgDefault tsRun contentOneBad).outcome = Outcome.GOOD ↔
      [((2 : Nat), (1 : Nat), [['x']]),
        (3, 3, [['y'], ['z']])].countP (isBadRecord cfgDefault 1) = 0) ∧
    ((parse_records cfgDefault tsRun contentOneBad).state.bad_records.map
      Prod.fst).Nodup :=
  bad_map_size_with_bounded_counts cfgDefault tsRun contentOneBad
    (1, 3, [['a'], ['b']]) [(2, 1, [['x']]), (3, 3, [['y'], ['z']])]
    (by decide) (by decide) (by decide)

/-! ## Claim C2 -/

theorem csvParseAux_escQuote (d : Char) :
    ∀ (f rest field : List Char) (row : List (List Char)),
      csvParseAux d (escQuote f ++ '"' :: rest) CsvMode.inQuoted field row =
        csvParseAux d rest CsvMode.quoteInQuoted (field ++ f) row := by
  intro f
  induction f with
  | nil => intro rest field row; simp [escQuote, csvParseAux]
  | cons c cs ih =>
    intro rest field row
    by_cases hc : c = '"'
    · subst hc
      have h1 : csvParseAux d (escQuote ('"' :: cs) ++ '"' :: rest)
          CsvMode.inQuoted field row =
          csvParseAux d (escQuote cs ++ '"' :: rest) CsvMode.inQuoted
            (field ++ ['"']) row := rfl
      rw [h1, ih]
      simp [List.append_assoc]
    · rw [show escQuote (c :: cs) = c :: escQuote cs by
        simp only [escQuote]; rw [if_neg hc]]
      rw [List.cons_append]
      simp only [csvParseAux]
      rw [if_neg hc, ih]
      simp [List.append_assoc]

theorem csvParseAux_encodeFields (d : Char) (hd : d ≠ '"') :
    ∀ (fs : List (List Char)) (row : List (List Char)), fs ≠ [] →
      csvParseAux d (joinDelim d (fs.map encodeField)) CsvMode.startField [] row =
        [row ++ fs] := by
  intro fs
  induction fs with
  | nil => intro row hne; exact absurd rfl hne
  | cons f fs ih =>
    intro row _
    cases fs with
    | nil =>
      have h1 : csvParseAux d (joinDelim d ([f].map encodeField))
          CsvMode.startField [] row =
          csvParseAux d (escQuote f ++ '"' :: []) CsvMode.inQuoted [] row := rfl
      rw [h1, csvParseAux_escQuote]
      rfl
    | cons f2 fs2 =>
      have hjoin : joinDelim d ((f :: f2 :: fs2).map encodeField) =
          '"' :: (escQuote f ++ '"' :: d ::
            joinDelim d ((f2 :: fs2).map encodeField)) := by
        simp only [List.map_cons, joinDelim, encodeField]
        simp [List.append_assoc]
      rw [hjoin]
      have h1 : csvParseAux d ('"' :: (escQuote f ++ '"' :: d ::
          joinDelim d ((f2 :: fs2).map encodeField))) CsvMode.startField [] row =
          csvParseAux d (escQuote f ++ '"' :: d ::
            joinDelim d ((f2 :: fs2).map encodeField)) CsvMode.inQuoted [] row := rfl
      rw [h1, csvParseAux_escQuote]
      simp only [csvParseAux]
      rw [if_neg hd]
      simp only [if_true, List.nil_append]
      rw [ih (row ++ [f]) (by simp)]
      simp [List.append_assoc]

/-- Claim C2: delimiters inside quoted fields never increase the field
count.  First conjunct: round trip — any non-empty field list, each field
quoted (with quotes doubled) and joined by the delimiter, parses back to
exactly those fields, whatever delimiters they contain.  Second conjunct:
the concrete header `col1,col2,col3` with detail `"a,with,commas",val2,val3`
yields field counts 3 and 3, outcome GOOD, and no stored mismatch beyond
the header placeholder. -/
theorem quoted_delimiters_do_not_add_fields :
    (∀ (d : Char) (fs : List (List Char)), d ≠ '"' → fs ≠ [] →
        csvParse d (encodeRow d fs) = [fs]) ∧
    ((read_delimited_record ',' contentQuoted).map (fun r => r.2.2.length) =
        [3, 3] ∧
      (parse_records cfgDefault tsRun contentQuoted).outcome = Outcome.GOOD ∧
      (parse_records cfgDefault tsRun contentQuoted).state.bad_records.length = 1) := by
  refine ⟨?_, by decide, by decide, by decide⟩
  intro d fs hd hne
  cases fs with
  | nil => exact absurd rfl hne
  | cons f fs =>
    have hstart : csvParse d (encodeRow d (f :: fs)) =
        csvParseAux d (joinDelim d ((f :: fs).map encodeField))
          CsvMode.startField [] [] := by
      cases fs <;> rfl
    rw [hstart, csvParseAux_encodeFields d hd (f :: fs) [] (by simp)]
    rfl

theorem quoted_delimiters_do_not_add_fields_witness :
    csvParse ',' (encodeRow ',' [['x'], [','], ['y', '"']]) =
      [[['x'], [','], ['y', '"']]] :=
  quoted_delimiters_do_not_add_fields.1 ',' [['x'], [','], ['y', '"']]
    (by decide) (by decide)

end DFC
